import Mathlib

/-!
Verification of the lab-scheduler core (`streamlit_lab_scheduler.py`).

The scheduler assigns labs to a contract's required tests: it parses
delimited text fields into token lists, resolves a season from the
sample-collection date, filters labs by capability / season / storage
constraints, ranks candidates by finish date then price, and chains the
timeline serially, finally summarising cost and missed deadlines.

Dates are modelled as integers counting calendar days since 1970-01-01
(Python `datetime.date` arithmetic is plain day arithmetic); prices are
modelled as rationals; text is modelled as `String` / `List Char` with an
ASCII lower-casing function matching Python `str.lower` on the data this
program handles.
-/

namespace LabSched

/-- ASCII lower-casing of one character (codepoints 65-90 map to 97-122,
everything else is fixed), modelling Python `str.lower` on the ASCII range. -/
def lowerChar (c : Char) : Char :=
  if 65 ≤ c.toNat ∧ c.toNat ≤ 90 then Char.ofNat (c.toNat + 32) else c

/-- Lower-casing of a character list, modelling Python `str.lower()`. -/
def lowerL (cs : List Char) : List Char := cs.map lowerChar

/-- Whitespace characters removed by Python `str.strip()`. -/
def isSpc (c : Char) : Bool :=
  c = ' ' || c = '\t' || c = '\n' || c = '\r' || c = '\x0b' || c = '\x0c'

/-- Remove leading and trailing whitespace, modelling Python `str.strip()`. -/
def trimL (cs : List Char) : List Char :=
  ((cs.dropWhile isSpc).reverse.dropWhile isSpc).reverse

/-- Replace every ';' by ',', modelling `str.replace(';', ',')`. -/
def semiToComma (cs : List Char) : List Char :=
  cs.map (fun c => if c = ';' then ',' else c)

/-- Split at every ',', keeping empty pieces, modelling `str.split(',')`. -/
def splitComma : List Char → List (List Char)
  | [] => [[]]
  | c :: cs =>
    if c = ',' then [] :: splitComma cs
    else
      match splitComma cs with
      | [] => [[c]]
      | g :: gs => (c :: g) :: gs

/-- The inline field parser used throughout `schedule_for_contract`
(lines 120, 146, 150, 154 of the source): replace ';' by ',', split on ',',
strip each piece and drop empty pieces.  Line 120 (required_tests) uses
exactly this; lines 146/150/154 additionally lower-case each token, see
`toksLower`. -/
def splitTokens (s : String) : List (List Char) :=
  ((splitComma (semiToComma s.data)).map trimL).filter (fun t => !t.isEmpty)

/-- The inline lab-field parser (source lines 146, 150, 154): tokens of
`splitTokens`, lower-cased. -/
def toksLower (s : String) : List (List Char) :=
  (splitTokens s).map lowerL

/-- The standalone helper `parse_list_field` (source lines 99-104): `None`
yields `[]`; otherwise split on ',' only (no ';' handling), strip each piece
and drop empty pieces, with no case normalization. -/
def parse_list_field (x : Option String) : List (List Char) :=
  match x with
  | none => []
  | some s => ((splitComma s.data).map trimL).filter (fun t => !t.isEmpty)

/-- Season from month number (source lines 107-115): Dec/Jan/Feb winter,
Mar/Apr/May spring, Jun/Jul/Aug summer, anything else autumn. -/
def months_to_season (month : Int) : String :=
  if month = 12 ∨ month = 1 ∨ month = 2 then "winter"
  else if month = 3 ∨ month = 4 ∨ month = 5 then "spring"
  else if month = 6 ∨ month = 7 ∨ month = 8 then "summer"
  else "autumn"

/-- Month (1-12) of a proleptic-Gregorian day number counted from 1970-01-01,
modelling Python `datetime.date.month`; standard civil-from-days integer
algorithm. -/
def monthOfDay (z : Int) : Int :=
  let z2 := z + 719468
  let era := Int.fdiv z2 146097
  let doe := z2 - era * 146097
  let yoe := Int.fdiv (doe - Int.fdiv doe 1460 + Int.fdiv doe 36524 - Int.fdiv doe 146096) 365
  let doy := doe - (365 * yoe + Int.fdiv yoe 4 - Int.fdiv yoe 100)
  let mp := Int.fdiv (5 * doy + 2) 153
  if mp < 10 then mp + 3 else mp - 9

/-- A row of the labs table (source `sample_labs` / labs.xlsx schema). -/
structure Lab where
  lab_id : Int
  name : String
  supported_tests : String
  capacity_per_day : Int
  turnaround_days : Int
  storage_conditions_accepted : String
  seasons_allowed : String
  price_per_test : Rat
deriving DecidableEq, Repr

/-- A row of the tests table (source `sample_tests` / tests.xlsx schema). -/
structure Test where
  test_id : Int
  test_name : String
  duration_days : Int
  required_storage_condition : String
  season_required : String
deriving DecidableEq, Repr

/-- A row of the contracts table (source `sample_contracts` /
contracts.xlsx schema); the two date fields are day numbers. -/
structure Contract where
  contract_id : Int
  product_name : String
  active_substance : String
  required_tests : String
  sample_collection_date : Int
  contract_deadline : Int
  max_storage_days : Int
deriving DecidableEq, Repr

/-- One row of the schedule the scheduler appends to `assignments`
(source lines 133-136, 167, 172-181); fields absent in a given source dict
are `none`. -/
structure Assignment where
  test_name : List Char
  status : String
  lab_id : Option Int := none
  lab_name : Option String := none
  start_date : Option Int := none
  finish_date : Option Int := none
  days_before_deadline : Option Int := none
  price : Option Rat := none
deriving DecidableEq, Repr

/-- A candidate tuple `(lab_id, name, est_start, est_finish,
days_until_deadline, price)` (source line 164). -/
structure Cand where
  lab_id : Int
  lab_name : String
  est_start : Int
  est_finish : Int
  days_until_deadline : Int
  price : Rat
deriving DecidableEq, Repr

/-- The constraint filter (source lines 145-156): the lab supports the test
name (case-insensitively), allows the season (or "all"), and accepts the
required storage condition (case-insensitively) unless it is empty. -/
def eligible (season name : List Char) (req_storage : String) (lab : Lab) : Bool :=
  decide (lowerL name ∈ toksLower lab.supported_tests) &&
  (decide ("all".data ∈ toksLower lab.seasons_allowed) ||
    decide (season ∈ toksLower lab.seasons_allowed)) &&
  (decide (req_storage = "") ||
    decide (lowerL req_storage.data ∈ (toksLower lab.storage_conditions_accepted).map lowerL))

/-- The candidate tuple built for an eligible lab (source lines 157-164):
`est_start = day_of_sample`, `est_finish = est_start + duration + turnaround`,
`days_until_deadline = deadline - est_finish`. -/
def candOf (day deadline duration : Int) (lab : Lab) : Cand :=
  { lab_id := lab.lab_id
    lab_name := lab.name
    est_start := day
    est_finish := day + (duration + lab.turnaround_days)
    days_until_deadline := deadline - (day + (duration + lab.turnaround_days))
    price := lab.price_per_test }

/-- The candidate list for one test: one tuple per eligible lab, in labs-table
order (source lines 143-164). -/
def candidatesFor (labs : List Lab) (season name : List Char) (req_storage : String)
    (day deadline duration : Int) : List Cand :=
  labs.filterMap (fun lab =>
    if eligible season name req_storage lab then some (candOf day deadline duration lab) else none)

/-- The sort key ordering of line 170: lexicographic on
`(est_finish, price)`. -/
def candLE (a b : Cand) : Prop :=
  a.est_finish < b.est_finish ∨ (a.est_finish = b.est_finish ∧ a.price ≤ b.price)

instance : DecidableRel candLE :=
  fun _ _ => inferInstanceAs (Decidable (Or _ _))

instance : IsTotal Cand candLE where
  total a b := by
    rcases lt_trichotomy a.est_finish b.est_finish with h | h | h
    · exact Or.inl (Or.inl h)
    · rcases le_total a.price b.price with hp | hp
      · exact Or.inl (Or.inr ⟨h, hp⟩)
      · exact Or.inr (Or.inr ⟨h.symm, hp⟩)
    · exact Or.inr (Or.inl h)

instance : IsTrans Cand candLE where
  trans a b c hab hbc := by
    rcases hab with h1 | ⟨h1, p1⟩ <;> rcases hbc with h2 | ⟨h2, p2⟩
    · exact Or.inl (h1.trans h2)
    · exact Or.inl (h2 ▸ h1)
    · exact Or.inl (h1 ▸ h2)
    · exact Or.inr ⟨h1.trans h2, p1.trans p2⟩

/-- Case-insensitive lookup of a test row by name, first match
(source line 131 with `.iloc[0]` on line 138). -/
def findTest (tests : List Test) (name : List Char) : Option Test :=
  tests.find? (fun t => decide (lowerL t.test_name.data = lowerL name))

/-- The body of the per-test loop (source lines 130-181): look up the test,
build the candidate list, sort by `(est_finish, price)` and take the head,
or emit the corresponding failure status. -/
def stepAssign (labs : List Lab) (tests : List Test) (deadline : Int) (season : List Char)
    (day : Int) (name : List Char) : Assignment :=
  match findTest tests name with
  | none => { test_name := name, status := "test not found in tests.xlsx" }
  | some t =>
    match List.insertionSort candLE
        (candidatesFor labs season name t.required_storage_condition day deadline
          t.duration_days) with
    | [] => { test_name := name, status := "no suitable lab found" }
    | c :: _ =>
      { test_name := name
        status := if 0 ≤ c.days_until_deadline then "scheduled" else "will miss deadline"
        lab_id := some c.lab_id
        lab_name := some c.lab_name
        start_date := some c.est_start
        finish_date := some c.est_finish
        days_before_deadline := some c.days_until_deadline
        price := some c.price }

/-- Timeline update after one assignment (source line 183): the resolved
branch sets `day_of_sample = chosen[3]` (and only resolved assignments carry
a `finish_date`), the failure branches `continue` without touching it. -/
def nextDay (day : Int) (a : Assignment) : Int :=
  a.finish_date.getD day

/-- The per-test loop of `schedule_for_contract` (source lines 130-185),
threading `day_of_sample` through `nextDay`. -/
def scheduleFrom (labs : List Lab) (tests : List Test) (deadline : Int) (season : List Char) :
    Int → List (List Char) → List Assignment
  | _, [] => []
  | day, name :: rest =>
    let a := stepAssign labs tests deadline season day name
    a :: scheduleFrom labs tests deadline season (nextDay day a) rest

/-- The `day_of_sample` value at entry to each loop iteration: the timeline
value used for each assignment. -/
def entryDates (labs : List Lab) (tests : List Test) (deadline : Int) (season : List Char) :
    Int → List (List Char) → List Int
  | _, [] => []
  | day, name :: rest =>
    day ::
      entryDates labs tests deadline season
        (nextDay day (stepAssign labs tests deadline season day name)) rest

/-- `schedule_for_contract` (source lines 118-185): parse the required tests,
resolve the season once from the month of `sample_collection_date`, and run
the serial loop starting at the sample-collection date. -/
def schedule_for_contract (c : Contract) (labs : List Lab) (tests : List Test) :
    List Assignment :=
  scheduleFrom labs tests c.contract_deadline
    (months_to_season (monthOfDay c.sample_collection_date)).data
    c.sample_collection_date
    (splitTokens c.required_tests)

/-- Total cost (source line 198): sum of the `price` column over rows whose
status is "scheduled" (pandas `.sum()` skips absent prices). -/
def total_cost (sch : List Assignment) : Rat :=
  ((sch.filter (fun a => a.status == "scheduled")).filterMap (fun a => a.price)).sum

/-- Missed count (source line 199): number of rows whose status is
"will miss deadline". -/
def missed_count (sch : List Assignment) : Nat :=
  (sch.filter (fun a => a.status == "will miss deadline")).length

/-- Case-insensitive token containment, in the words of the spec: some raw
trimmed token of the field equals the given string up to case. -/
def containsCI (field : String) (x : List Char) : Prop :=
  ∃ tok ∈ splitTokens field, lowerL tok = lowerL x

/-- The field list parser as claim C10 describes it: split on ',' or ';'
into trimmed, case-normalized tokens, empty input yielding nothing. -/
def parse_list_field_claimed (x : Option String) : List (List Char) :=
  match x with
  | none => []
  | some s =>
    ((splitComma (semiToComma s.data)).map (fun t => lowerL (trimL t))).filter
      (fun t => !t.isEmpty)

/-! ### Basic facts about lower-casing and tokenization -/

theorem lowerChar_toNat (c : Char) (h : 65 ≤ c.toNat ∧ c.toNat ≤ 90) :
    (lowerChar c).toNat = c.toNat + 32 := by
  have hv : (c.toNat + 32).isValidChar := Or.inl (by omega)
  unfold lowerChar
  rw [if_pos h, Char.ofNat, dif_pos hv]
  simp [Char.ofNatAux, Char.toNat, UInt32.toNat, BitVec.toNat_ofNatLt]

theorem lowerChar_lowerChar (c : Char) : lowerChar (lowerChar c) = lowerChar c := by
  by_cases h : 65 ≤ c.toNat ∧ c.toNat ≤ 90
  · have h2 := lowerChar_toNat c h
    unfold lowerChar
    rw [if_pos h, if_neg]
    unfold lowerChar at h2
    rw [if_pos h] at h2
    omega
  · have hc : lowerChar c = c := by rw [lowerChar, if_neg h]
    rw [hc, hc]

theorem lowerL_lowerL (cs : List Char) : lowerL (lowerL cs) = lowerL cs := by
  unfold lowerL
  rw [List.map_map]
  exact List.map_congr_left (fun a _ => lowerChar_lowerChar a)

theorem mem_toksLower {s : String} {y : List Char} :
    y ∈ toksLower s ↔ ∃ tok ∈ splitTokens s, lowerL tok = y := by
  unfold toksLower
  exact List.mem_map

theorem containsCI_iff {s : String} {x : List Char} :
    lowerL x ∈ toksLower s ↔ containsCI s x := by
  unfold containsCI
  exact mem_toksLower

theorem map_lowerL_toksLower (s : String) : (toksLower s).map lowerL = toksLower s := by
  unfold toksLower
  rw [List.map_map]
  exact List.map_congr_left (fun a _ => lowerL_lowerL a)

theorem lowerL_season (m : Int) :
    lowerL (months_to_season m).data = (months_to_season m).data := by
  unfold months_to_season
  split_ifs <;> decide

theorem lowerL_all : lowerL "all".data = "all".data := by decide

/-- Claim C1: a lab is eligible for a test under the resolved season iff
(1) its supported_tests contains the test's name case-insensitively,
(2) its seasons_allowed contains the token "all" or the resolved season, and
(3) the test's required storage condition is empty or its
storage_conditions_accepted contains it as a case-insensitive exact token. -/
theorem C1_eligible_iff (m : Int) (name : List Char) (req : String) (lab : Lab) :
    eligible (months_to_season m).data name req lab = true ↔
      (containsCI lab.supported_tests name ∧
        (containsCI lab.seasons_allowed "all".data ∨
          containsCI lab.seasons_allowed (months_to_season m).data) ∧
        (req = "" ∨ containsCI lab.storage_conditions_accepted req.data)) := by
  have hall : ("all".data ∈ toksLower lab.seasons_allowed) ↔
      containsCI lab.seasons_allowed "all".data := by
    have := containsCI_iff (s := lab.seasons_allowed) (x := "all".data)
    rwa [lowerL_all] at this
  have hseason : ((months_to_season m).data ∈ toksLower lab.seasons_allowed) ↔
      containsCI lab.seasons_allowed (months_to_season m).data := by
    have := containsCI_iff (s := lab.seasons_allowed) (x := (months_to_season m).data)
    rwa [lowerL_season] at this
  have hsto : (lowerL req.data ∈ (toksLower lab.storage_conditions_accepted).map lowerL) ↔
      containsCI lab.storage_conditions_accepted req.data := by
    rw [map_lowerL_toksLower]
    exact containsCI_iff
  unfold eligible
  simp only [Bool.and_eq_true, Bool.or_eq_true, decide_eq_true_eq]
  rw [containsCI_iff, hall, hseason, hsto, and_assoc]

/-! ### Candidate ranking -/

theorem mem_candidatesFor {labs : List Lab} {season name : List Char} {req : String}
    {day ddl dur : Int} {x : Cand} :
    x ∈ candidatesFor labs season name req day ddl dur ↔
      ∃ lab ∈ labs, eligible season name req lab = true ∧ x = candOf day ddl dur lab := by
  unfold candidatesFor
  simp only [List.mem_filterMap]
  constructor
  · rintro ⟨lab, hl, he⟩
    by_cases h : eligible season name req lab
    · rw [if_pos h] at he
      exact ⟨lab, hl, h, (Option.some_inj.mp he).symm⟩
    · rw [if_neg h] at he
      cases he
  · rintro ⟨lab, hl, h, rfl⟩
    exact ⟨lab, hl, by rw [if_pos h]⟩

theorem candidatesFor_est_start {labs : List Lab} {season name : List Char} {req : String}
    {day ddl dur : Int} {x : Cand}
    (hx : x ∈ candidatesFor labs season name req day ddl dur) : x.est_start = day := by
  rcases mem_candidatesFor.mp hx with ⟨lab, _, _, rfl⟩
  rfl

theorem candidatesFor_days {labs : List Lab} {season name : List Char} {req : String}
    {day ddl dur : Int} {x : Cand}
    (hx : x ∈ candidatesFor labs season name req day ddl dur) :
    x.days_until_deadline = ddl - x.est_finish := by
  rcases mem_candidatesFor.mp hx with ⟨lab, _, _, rfl⟩
  rfl

/-- Claim C2: when a test is found and its sorted candidate list is nonempty,
the scheduler's assignment takes its lab, price and finish date from the head
of that list, which is the candidate of an eligible lab, has minimal
`est_finish` among all candidates, and minimal price among candidates sharing
that minimal `est_finish`. -/
theorem C2_chosen_minimal (labs : List Lab) (tests : List Test) (season name : List Char)
    (day ddl : Int) (t : Test) (c : Cand) (cs : List Cand)
    (hfind : findTest tests name = some t)
    (h : List.insertionSort candLE
      (candidatesFor labs season name t.required_storage_condition day ddl
        t.duration_days) = c :: cs) :
    (stepAssign labs tests ddl season day name).lab_id = some c.lab_id ∧
    (stepAssign labs tests ddl season day name).price = some c.price ∧
    (stepAssign labs tests ddl season day name).finish_date = some c.est_finish ∧
    (∃ lab ∈ labs, eligible season name t.required_storage_condition lab = true ∧
      c = candOf day ddl t.duration_days lab) ∧
    ∀ x ∈ candidatesFor labs season name t.required_storage_condition day ddl
        t.duration_days,
      c.est_finish ≤ x.est_finish ∧ (x.est_finish = c.est_finish → c.price ≤ x.price) := by
  have hperm := List.perm_insertionSort candLE
    (candidatesFor labs season name t.required_storage_condition day ddl t.duration_days)
  rw [h] at hperm
  have hsorted := List.sorted_insertionSort candLE
    (candidatesFor labs season name t.required_storage_condition day ddl t.duration_days)
  rw [h] at hsorted
  have hc : c ∈ candidatesFor labs season name t.required_storage_condition day ddl
      t.duration_days :=
    hperm.mem_iff.mp (List.mem_cons_self c cs)
  refine ⟨by simp [stepAssign, hfind, h], by simp [stepAssign, hfind, h],
    by simp [stepAssign, hfind, h], mem_candidatesFor.mp hc, ?_⟩
  intro x hx
  have hx' : x ∈ c :: cs := hperm.symm.mem_iff.mp hx
  rcases List.mem_cons.mp hx' with rfl | hxs
  · exact ⟨le_refl _, fun _ => le_refl _⟩
  · have hle : candLE c x := (List.sorted_cons.mp hsorted).1 x hxs
    rcases hle with hlt | ⟨heq, hp⟩
    · refine ⟨hlt.le, fun hfe => absurd (hfe ▸ hlt) (lt_irrefl _)⟩
    · exact ⟨heq.le, fun _ => hp⟩

/-- Lab A of the source's `sample_labs`. -/
def labA : Lab :=
  { lab_id := 1, name := "Lab A", supported_tests := "Residue, Purity",
    capacity_per_day := 10, turnaround_days := 7,
    storage_conditions_accepted := "+4C, -20C", seasons_allowed := "all",
    price_per_test := 120 }

/-- Lab B of the source's `sample_labs`. -/
def labB : Lab :=
  { lab_id := 2, name := "Lab B", supported_tests := "Residue",
    capacity_per_day := 5, turnaround_days := 14,
    storage_conditions_accepted := "+4C", seasons_allowed := "summer,autumn",
    price_per_test := 100 }

/-- The Residue test of the source's `sample_tests`. -/
def tResidue : Test :=
  { test_id := 1, test_name := "Residue", duration_days := 3,
    required_storage_condition := "+4C", season_required := "" }

/-- Witness for C2 at a concrete input: in summer both sample labs are
eligible for Residue; Lab A finishes first (day 10 vs day 17) and is chosen
even at a higher price. -/
theorem C2_chosen_minimal_witness :
    (stepAssign [labA, labB] [tResidue] 100 "summer".data 0 "Residue".data).lab_id =
      some (candOf 0 100 3 labA).lab_id ∧
    (stepAssign [labA, labB] [tResidue] 100 "summer".data 0 "Residue".data).price =
      some (candOf 0 100 3 labA).price ∧
    (stepAssign [labA, labB] [tResidue] 100 "summer".data 0 "Residue".data).finish_date =
      some (candOf 0 100 3 labA).est_finish ∧
    (∃ lab ∈ [labA, labB],
      eligible "summer".data "Residue".data tResidue.required_storage_condition lab = true ∧
      candOf 0 100 3 labA = candOf 0 100 tResidue.duration_days lab) ∧
    ∀ x ∈ candidatesFor [labA, labB] "summer".data "Residue".data
        tResidue.required_storage_condition 0 100 tResidue.duration_days,
      (candOf 0 100 3 labA).est_finish ≤ x.est_finish ∧
      (x.est_finish = (candOf 0 100 3 labA).est_finish →
        (candOf 0 100 3 labA).price ≤ x.price) :=
  C2_chosen_minimal [labA, labB] [tResidue] "summer".data "Residue".data 0 100 tResidue
    (candOf 0 100 3 labA) [candOf 0 100 3 labB] (by decide) (by decide)

/-! ### The shape of one loop iteration -/

theorem stepAssign_shape (labs : List Lab) (tests : List Test) (ddl : Int) (season : List Char)
    (day : Int) (name : List Char) :
    (findTest tests name = none ∧
      stepAssign labs tests ddl season day name =
        { test_name := name, status := "test not found in tests.xlsx" }) ∨
    (∃ t, findTest tests name = some t ∧
      List.insertionSort candLE
        (candidatesFor labs season name t.required_storage_condition day ddl
          t.duration_days) = [] ∧
      stepAssign labs tests ddl season day name =
        { test_name := name, status := "no suitable lab found" }) ∨
    (∃ t c cs, findTest tests name = some t ∧
      List.insertionSort candLE
        (candidatesFor labs season name t.required_storage_condition day ddl
          t.duration_days) = c :: cs ∧
      stepAssign labs tests ddl season day name =
        { test_name := name
          status := if 0 ≤ c.days_until_deadline then "scheduled" else "will miss deadline"
          lab_id := some c.lab_id
          lab_name := some c.lab_name
          start_date := some c.est_start
          finish_date := some c.est_finish
          days_before_deadline := some c.days_until_deadline
          price := some c.price }) := by
  cases hf : findTest tests name with
  | none => exact Or.inl ⟨rfl, by simp [stepAssign, hf]⟩
  | some t =>
    cases hs : List.insertionSort candLE
        (candidatesFor labs season name t.required_storage_condition day ddl
          t.duration_days) with
    | nil => exact Or.inr (Or.inl ⟨t, rfl, hs, by simp [stepAssign, hf, hs]⟩)
    | cons c cs => exact Or.inr (Or.inr ⟨t, c, cs, rfl, hs, by simp [stepAssign, hf, hs]⟩)

theorem stepAssign_test_name (labs : List Lab) (tests : List Test) (ddl : Int)
    (season : List Char) (day : Int) (name : List Char) :
    (stepAssign labs tests ddl season day name).test_name = name := by
  rcases stepAssign_shape labs tests ddl season day name with
    ⟨_, he⟩ | ⟨t, _, _, he⟩ | ⟨t, c, cs, _, _, he⟩ <;> rw [he]

theorem stepAssign_resolved_shape (labs : List Lab) (tests : List Test) (ddl : Int)
    (season : List Char) (day : Int) (name : List Char)
    (h : (stepAssign labs tests ddl season day name).status = "scheduled" ∨
      (stepAssign labs tests ddl season day name).status = "will miss deadline") :
    ∃ t c cs, findTest tests name = some t ∧
      List.insertionSort candLE
        (candidatesFor labs season name t.required_storage_condition day ddl
          t.duration_days) = c :: cs ∧
      c ∈ candidatesFor labs season name t.required_storage_condition day ddl
        t.duration_days ∧
      stepAssign labs tests ddl season day name =
        { test_name := name
          status := if 0 ≤ c.days_until_deadline then "scheduled" else "will miss deadline"
          lab_id := some c.lab_id
          lab_name := some c.lab_name
          start_date := some c.est_start
          finish_date := some c.est_finish
          days_before_deadline := some c.days_until_deadline
          price := some c.price } := by
  rcases stepAssign_shape labs tests ddl season day name with
    ⟨_, he⟩ | ⟨t, _, _, he⟩ | ⟨t, c, cs, hf, hs, he⟩
  · rw [he] at h
    rcases h with h | h
    · exact absurd h (by decide : ¬("test not found in tests.xlsx" : String) = "scheduled")
    · exact absurd h
        (by decide : ¬("test not found in tests.xlsx" : String) = "will miss deadline")
  · rw [he] at h
    rcases h with h | h
    · exact absurd h (by decide : ¬("no suitable lab found" : String) = "scheduled")
    · exact absurd h (by decide : ¬("no suitable lab found" : String) = "will miss deadline")
  · have hc : c ∈ candidatesFor labs season name t.required_storage_condition day ddl
        t.duration_days := by
      have hmem : c ∈ List.insertionSort candLE
          (candidatesFor labs season name t.required_storage_condition day ddl
            t.duration_days) := by
        rw [hs]
        exact List.mem_cons_self c cs
      exact (List.perm_insertionSort candLE _).mem_iff.mp hmem
    exact ⟨t, c, cs, hf, hs, hc, he⟩

theorem stepAssign_resolved (labs : List Lab) (tests : List Test) (ddl : Int)
    (season : List Char) (day : Int) (name : List Char)
    (h : (stepAssign labs tests ddl season day name).status = "scheduled" ∨
      (stepAssign labs tests ddl season day name).status = "will miss deadline") :
    (stepAssign labs tests ddl season day name).start_date = some day ∧
    (stepAssign labs tests ddl season day name).finish_date =
      some (nextDay day (stepAssign labs tests ddl season day name)) := by
  rcases stepAssign_resolved_shape labs tests ddl season day name h with
    ⟨t, c, cs, hf, hs, hc, he⟩
  have hstart : c.est_start = day := candidatesFor_est_start hc
  rw [he]
  exact ⟨by rw [hstart], by simp [nextDay]⟩

theorem stepAssign_not_resolved (labs : List Lab) (tests : List Test) (ddl : Int)
    (season : List Char) (day : Int) (name : List Char)
    (h : ¬((stepAssign labs tests ddl season day name).status = "scheduled" ∨
      (stepAssign labs tests ddl season day name).status = "will miss deadline")) :
    (stepAssign labs tests ddl season day name).finish_date = none ∧
    nextDay day (stepAssign labs tests ddl season day name) = day := by
  rcases stepAssign_shape labs tests ddl season day name with
    ⟨_, he⟩ | ⟨t, _, _, he⟩ | ⟨t, c, cs, hf, hs, he⟩
  · rw [he]
    exact ⟨rfl, rfl⟩
  · rw [he]
    exact ⟨rfl, rfl⟩
  · exfalso
    rw [he] at h
    by_cases h0 : 0 ≤ c.days_until_deadline <;> simp [h0] at h

/-- Claim C3: along a schedule, a resolved assignment starts at the timeline
value it was given and finishes at the timeline value handed to the next
assignment; an unresolved assignment leaves the timeline value unchanged; and
consecutive resolved assignments chain start to finish. -/
theorem C3_chaining (labs : List Lab) (tests : List Test) (ddl : Int) (season : List Char)
    (names : List (List Char)) (d : Int) (i : Nat) (a : Assignment) (di di' : Int)
    (ha : (scheduleFrom labs tests ddl season d names)[i]? = some a)
    (hdi : (entryDates labs tests ddl season d names)[i]? = some di)
    (hdi' : (entryDates labs tests ddl season d names)[i + 1]? = some di') :
    ((a.status = "scheduled" ∨ a.status = "will miss deadline") →
      a.start_date = some di ∧ a.finish_date = some di') ∧
    ((a.status ≠ "scheduled" ∧ a.status ≠ "will miss deadline") → di' = di) ∧
    (∀ b, (scheduleFrom labs tests ddl season d names)[i + 1]? = some b →
      (a.status = "scheduled" ∨ a.status = "will miss deadline") →
      (b.status = "scheduled" ∨ b.status = "will miss deadline") →
      b.start_date = a.finish_date) := by
  induction names generalizing d i with
  | nil => simp [scheduleFrom] at ha
  | cons name rest ih =>
    have hsch : scheduleFrom labs tests ddl season d (name :: rest) =
        stepAssign labs tests ddl season d name ::
          scheduleFrom labs tests ddl season
            (nextDay d (stepAssign labs tests ddl season d name)) rest := rfl
    have hed : entryDates labs tests ddl season d (name :: rest) =
        d :: entryDates labs tests ddl season
          (nextDay d (stepAssign labs tests ddl season d name)) rest := rfl
    rw [hsch] at ha ⊢
    rw [hed] at hdi hdi'
    cases i with
    | zero =>
      simp only [List.getElem?_cons_zero, Option.some_inj] at ha hdi
      subst ha
      subst hdi
      simp only [List.getElem?_cons_succ] at hdi' ⊢
      cases rest with
      | nil => simp [entryDates] at hdi'
      | cons n2 r2 =>
        have hed2 : entryDates labs tests ddl season
            (nextDay d (stepAssign labs tests ddl season d name)) (n2 :: r2) =
            nextDay d (stepAssign labs tests ddl season d name) ::
              entryDates labs tests ddl season
                (nextDay
                  (nextDay d (stepAssign labs tests ddl season d name))
                  (stepAssign labs tests ddl season
                    (nextDay d (stepAssign labs tests ddl season d name)) n2)) r2 := rfl
        rw [hed2] at hdi'
        simp only [List.getElem?_cons_zero, Option.some_inj] at hdi'
        subst hdi'
        refine ⟨?_, ?_, ?_⟩
        · intro hres
          exact stepAssign_resolved labs tests ddl season d name hres
        · intro hnres
          exact (stepAssign_not_resolved labs tests ddl season d name
            (by
              rintro (h | h)
              · exact hnres.1 h
              · exact hnres.2 h)).2
        · intro b hb hres hbres
          have hsch2 : scheduleFrom labs tests ddl season
              (nextDay d (stepAssign labs tests ddl season d name)) (n2 :: r2) =
              stepAssign labs tests ddl season
                  (nextDay d (stepAssign labs tests ddl season d name)) n2 ::
                scheduleFrom labs tests ddl season
                  (nextDay
                    (nextDay d (stepAssign labs tests ddl season d name))
                    (stepAssign labs tests ddl season
                      (nextDay d (stepAssign labs tests ddl season d name)) n2)) r2 := rfl
          rw [hsch2] at hb
          simp only [List.getElem?_cons_zero, Option.some_inj] at hb
          subst hb
          rw [(stepAssign_resolved labs tests ddl season d name hres).2,
            (stepAssign_resolved labs tests ddl season
              (nextDay d (stepAssign labs tests ddl season d name)) n2 hbres).1]
    | succ j =>
      simp only [List.getElem?_cons_succ] at ha hdi hdi' ⊢
      exact ih (nextDay d (stepAssign labs tests ddl season d name)) j ha hdi hdi'

/-- The Purity test of the source's `sample_tests`. -/
def tPurity : Test :=
  { test_id := 2, test_name := "Purity", duration_days := 2,
    required_storage_condition := "room", season_required := "" }

/-- The assignment the scheduler produces for Residue with Lab A when the
sample is collected on day 19732 (2024-01-10) with deadline 19762. -/
def wResidueA : Assignment :=
  { test_name := "Residue".data, status := "scheduled", lab_id := some 1,
    lab_name := some "Lab A", start_date := some 19732, finish_date := some 19742,
    days_before_deadline := some 20, price := some 120 }

/-- Witness for C3 at a concrete input: the first assignment of a two-test
schedule resolves, starts at the sample date and finishes at the timeline
value handed to the second test. -/
theorem C3_chaining_witness :
    ((wResidueA.status = "scheduled" ∨ wResidueA.status = "will miss deadline") →
      wResidueA.start_date = some 19732 ∧ wResidueA.finish_date = some 19742) ∧
    ((wResidueA.status ≠ "scheduled" ∧ wResidueA.status ≠ "will miss deadline") →
      (19742 : Int) = 19732) ∧
    (∀ b, (scheduleFrom [labA] [tResidue, tPurity] 19762 "winter".data 19732
        ["Residue".data, "Purity".data])[0 + 1]? = some b →
      (wResidueA.status = "scheduled" ∨ wResidueA.status = "will miss deadline") →
      (b.status = "scheduled" ∨ b.status = "will miss deadline") →
      b.start_date = wResidueA.finish_date) :=
  C3_chaining [labA] [tResidue, tPurity] 19762 "winter".data
    ["Residue".data, "Purity".data] 19732 0 wResidueA 19732 19742
    (by decide) (by decide) (by decide)

/-- Claim C4: a resolved assignment's finish date is its start date plus the
test's duration plus the chosen lab's turnaround, in calendar days. -/
theorem C4_resolved_finish (labs : List Lab) (tests : List Test) (ddl : Int)
    (season : List Char) (d : Int) (names : List (List Char)) (a : Assignment)
    (hmem : a ∈ scheduleFrom labs tests ddl season d names)
    (hres : a.status = "scheduled" ∨ a.status = "will miss deadline") :
    ∃ day t lab, findTest tests a.test_name = some t ∧ lab ∈ labs ∧
      eligible season a.test_name t.required_storage_condition lab = true ∧
      a.lab_id = some lab.lab_id ∧
      a.start_date = some day ∧
      a.finish_date = some (day + (t.duration_days + lab.turnaround_days)) := by
  induction names generalizing d with
  | nil => simp [scheduleFrom] at hmem
  | cons name rest ih =>
    rcases List.mem_cons.mp hmem with rfl | hmem'
    · rcases stepAssign_resolved_shape labs tests ddl season d name hres with
        ⟨t, c, cs, hf, hs, hc, he⟩
      rcases mem_candidatesFor.mp hc with ⟨lab, hlab, helig, hceq⟩
      refine ⟨d, t, lab, ?_, hlab, ?_, ?_, ?_, ?_⟩
      · rw [stepAssign_test_name]
        exact hf
      · rw [stepAssign_test_name]
        exact helig
      · rw [he, hceq]
        rfl
      · rw [he, hceq]
        rfl
      · rw [he, hceq]
        rfl
    · exact ih (nextDay d (stepAssign labs tests ddl season d name)) hmem'

/-- Witness for C4 at a concrete input: the Residue assignment of the sample
run resolves with Lab A, finishing 3 + 7 days after its start. -/
theorem C4_resolved_finish_witness :
    ∃ day t lab, findTest [tResidue, tPurity] wResidueA.test_name = some t ∧
      lab ∈ [labA] ∧
      eligible "winter".data wResidueA.test_name t.required_storage_condition lab = true ∧
      wResidueA.lab_id = some lab.lab_id ∧
      wResidueA.start_date = some day ∧
      wResidueA.finish_date = some (day + (t.duration_days + lab.turnaround_days)) :=
  C4_resolved_finish [labA] [tResidue, tPurity] 19762 "winter".data 19732
    ["Residue".data, "Purity".data] wResidueA (by decide) (by decide)

/-- Claim C5: a resolved assignment's days_before_deadline is the deadline
minus its finish date, and its status is "scheduled" exactly when that slack
is nonnegative, "will miss deadline" otherwise. -/
theorem C5_deadline_status (labs : List Lab) (tests : List Test) (ddl : Int)
    (season : List Char) (d : Int) (names : List (List Char)) (a : Assignment) (f : Int)
    (hmem : a ∈ scheduleFrom labs tests ddl season d names)
    (hf : a.finish_date = some f) :
    a.days_before_deadline = some (ddl - f) ∧
    a.status = if 0 ≤ ddl - f then "scheduled" else "will miss deadline" := by
  induction names generalizing d with
  | nil => simp [scheduleFrom] at hmem
  | cons name rest ih =>
    rcases List.mem_cons.mp hmem with rfl | hmem'
    · rcases stepAssign_shape labs tests ddl season d name with
        ⟨_, he⟩ | ⟨t, _, _, he⟩ | ⟨t, c, cs, hfind, hs, he⟩
      · rw [he] at hf
        cases hf
      · rw [he] at hf
        cases hf
      · have hc : c ∈ candidatesFor labs season name t.required_storage_condition d ddl
            t.duration_days := by
          have hmemc : c ∈ List.insertionSort candLE
              (candidatesFor labs season name t.required_storage_condition d ddl
                t.duration_days) := by
            rw [hs]
            exact List.mem_cons_self c cs
          exact (List.perm_insertionSort candLE _).mem_iff.mp hmemc


        rw [he] at hf ⊢
        have hfe : c.est_finish = f := Option.some_inj.mp hf
        have hd := candidatesFor_days hc
        constructor
        · show some c.days_until_deadline = some (ddl - f)
          rw [hd, hfe]
        · show (if 0 ≤ c.days_until_deadline then "scheduled" else "will miss deadline") =
            if 0 ≤ ddl - f then "scheduled" else "will miss deadline"
          rw [hd, hfe]
    · exact ih (nextDay d (stepAssign labs tests ddl season d name)) hmem'

/-- Witness for C5 at a concrete input: the Residue assignment of the sample
run finishes on day 19742 with slack 20, hence status "scheduled". -/
theorem C5_deadline_status_witness :
    wResidueA.days_before_deadline = some (19762 - 19742) ∧
    wResidueA.status = if 0 ≤ (19762 : Int) - 19742 then "scheduled" else "will miss deadline" :=
  C5_deadline_status [labA] [tResidue, tPurity] 19762 "winter".data 19732
    ["Residue".data, "Purity".data] wResidueA 19742 (by decide) (by decide)

/-! ### Cost and count summaries -/

theorem scheduleFrom_scheduled_price (labs : List Lab) (tests : List Test) (ddl : Int)
    (season : List Char) (names : List (List Char)) (d : Int) (a : Assignment)
    (hmem : a ∈ scheduleFrom labs tests ddl season d names)
    (hs : a.status = "scheduled") : (a.price).isSome := by
  induction names generalizing d with
  | nil => simp [scheduleFrom] at hmem
  | cons name rest ih =>
    rcases List.mem_cons.mp hmem with rfl | hmem'
    · rcases stepAssign_resolved_shape labs tests ddl season d name (Or.inl hs) with
        ⟨t, c, cs, _, _, _, he⟩
      rw [he]
      rfl
    · exact ih (nextDay d (stepAssign labs tests ddl season d name)) hmem'

theorem total_cost_eq (sch : List Assignment)
    (h : ∀ a ∈ sch, a.status = "scheduled" → (a.price).isSome) :
    total_cost sch =
      (sch.map (fun a => if a.status = "scheduled" then (a.price).getD 0 else 0)).sum := by
  induction sch with
  | nil => rfl
  | cons a l ih =>
    have hl : ∀ b ∈ l, b.status = "scheduled" → (b.price).isSome :=
      fun b hb => h b (List.mem_cons_of_mem a hb)
    by_cases hs : a.status = "scheduled"
    · obtain ⟨p, hp⟩ := Option.isSome_iff_exists.mp (h a (List.mem_cons_self a l) hs)
      simp only [total_cost] at ih ⊢
      simp [List.filter_cons, hs, hp, ih hl]
    · simp only [total_cost] at ih ⊢
      simp [List.filter_cons, hs, ih hl]

/-- Claim C6: in any schedule the scheduler produces, every "scheduled"
assignment carries a price, the total cost sums exactly the prices of the
"scheduled" assignments (late-but-resolved ones contribute nothing), and the
missed count is the number of "will miss deadline" assignments. -/
theorem C6_cost_summary (labs : List Lab) (tests : List Test) (ddl : Int)
    (season : List Char) (d : Int) (names : List (List Char)) :
    (∀ a ∈ scheduleFrom labs tests ddl season d names,
      a.status = "scheduled" → (a.price).isSome) ∧
    total_cost (scheduleFrom labs tests ddl season d names) =
      ((scheduleFrom labs tests ddl season d names).map
        (fun a => if a.status = "scheduled" then (a.price).getD 0 else 0)).sum ∧
    missed_count (scheduleFrom labs tests ddl season d names) =
      List.countP (fun a => a.status == "will miss deadline")
        (scheduleFrom labs tests ddl season d names) := by
  refine ⟨?_, ?_, ?_⟩
  · intro a hmem hs
    exact scheduleFrom_scheduled_price labs tests ddl season names d a hmem hs
  · exact total_cost_eq _ (fun a hmem hs =>
      scheduleFrom_scheduled_price labs tests ddl season names d a hmem hs)
  · rw [missed_count, List.countP_eq_length_filter]

/-! ### One assignment per required test -/

theorem scheduleFrom_map_names (labs : List Lab) (tests : List Test) (ddl : Int)
    (season : List Char) :
    ∀ (names : List (List Char)) (d : Int),
      (scheduleFrom labs tests ddl season d names).map (fun a => a.test_name) = names := by
  intro names
  induction names with
  | nil => intro d; rfl
  | cons name rest ih =>
    intro d
    show (stepAssign labs tests ddl season d name ::
        scheduleFrom labs tests ddl season
          (nextDay d (stepAssign labs tests ddl season d name)) rest).map
        (fun a => a.test_name) = name :: rest
    rw [List.map_cons, stepAssign_test_name, ih]

/-- Claim C7: the schedule has exactly one assignment per parsed required
test name, in the order of required_tests, including unresolved ones. -/
theorem C7_schedule_names (c : Contract) (labs : List Lab) (tests : List Test) :
    (schedule_for_contract c labs tests).map (fun a => a.test_name) =
      splitTokens c.required_tests ∧
    (schedule_for_contract c labs tests).length =
      (splitTokens c.required_tests).length := by
  have h := scheduleFrom_map_names labs tests c.contract_deadline
    ((months_to_season (monthOfDay c.sample_collection_date)).data)
    (splitTokens c.required_tests) c.sample_collection_date
  refine ⟨h, ?_⟩
  calc (schedule_for_contract c labs tests).length
      = ((schedule_for_contract c labs tests).map (fun a => a.test_name)).length :=
        (List.length_map _ _).symm
    _ = (splitTokens c.required_tests).length := congrArg List.length h

/-! ### The "test not found" branch -/

/-- Claim C8 as amended: a required test name absent from the tests table
yields an assignment with status "test not found in tests.xlsx" and no lab,
price or date fields, leaves the timeline value unchanged, and the scheduler
continues with the remaining tests. -/
theorem C8_test_not_found (labs : List Lab) (tests : List Test) (ddl : Int)
    (season : List Char) (d : Int) (name : List Char) (rest : List (List Char))
    (h : findTest tests name = none) :
    scheduleFrom labs tests ddl season d (name :: rest) =
      { test_name := name, status := "test not found in tests.xlsx",
        lab_id := none, lab_name := none, start_date := none, finish_date := none,
        days_before_deadline := none, price := none } ::
        scheduleFrom labs tests ddl season d rest := by
  have hstep : stepAssign labs tests ddl season d name =
      { test_name := name, status := "test not found in tests.xlsx" } := by
    simp [stepAssign, h]
  show stepAssign labs tests ddl season d name ::
      scheduleFrom labs tests ddl season
        (nextDay d (stepAssign labs tests ddl season d name)) rest = _
  rw [hstep]
  rfl

/-- Witness for C8 at a concrete input: the unknown name "Foo" produces the
not-found assignment and the schedule continues from the same day. -/
theorem C8_test_not_found_witness :
    findTest [tResidue] "Foo".data = none ∧
    scheduleFrom [labA] [tResidue] 19762 "winter".data 19732
        ["Foo".data, "Residue".data] =
      { test_name := "Foo".data, status := "test not found in tests.xlsx",
        lab_id := none, lab_name := none, start_date := none, finish_date := none,
        days_before_deadline := none, price := none } ::
        scheduleFrom [labA] [tResidue] 19762 "winter".data 19732 ["Residue".data] :=
  ⟨by decide,
    C8_test_not_found [labA] [tResidue] 19762 "winter".data 19732 "Foo".data
      ["Residue".data] (by decide)⟩

/-- A contract requiring the unknown test "Foo" before Residue. -/
def cFoo : Contract :=
  { contract_id := 1, product_name := "X", active_substance := "Y",
    required_tests := "Foo;Residue", sample_collection_date := 19732,
    contract_deadline := 19762, max_storage_days := 14 }

/-- Counterexample to C8 as stated: at a concrete input whose first required
test is absent from the tests table, the emitted status is the literal
"test not found in tests.xlsx", not "test not found". -/
theorem C8_status_cex :
    findTest [tResidue] "Foo".data = none ∧
    (schedule_for_contract cFoo [labA] [tResidue]).map (fun a => a.status) =
      ["test not found in tests.xlsx", "scheduled"] ∧
    ("test not found in tests.xlsx" : String) ≠ "test not found" := by
  refine ⟨by decide, by decide, by decide⟩

/-! ### Season resolution -/

/-- A lab supporting T1 in any season, turnaround 5 days. -/
def lab0 : Lab :=
  { lab_id := 1, name := "L0", supported_tests := "T1", capacity_per_day := 1,
    turnaround_days := 5, storage_conditions_accepted := "",
    seasons_allowed := "all", price_per_test := 10 }

/-- A lab supporting T2 in winter only. -/
def labW : Lab :=
  { lab_id := 10, name := "LW", supported_tests := "T2", capacity_per_day := 1,
    turnaround_days := 0, storage_conditions_accepted := "",
    seasons_allowed := "winter", price_per_test := 50 }

/-- A cheaper lab supporting T2 in spring only. -/
def labS : Lab :=
  { lab_id := 11, name := "LS", supported_tests := "T2", capacity_per_day := 1,
    turnaround_days := 0, storage_conditions_accepted := "",
    seasons_allowed := "spring", price_per_test := 1 }

/-- A 40-day test followed by a short test. -/
def t1 : Test :=
  { test_id := 1, test_name := "T1", duration_days := 40,
    required_storage_condition := "", season_required := "" }

/-- A short test whose lab choice reveals which season the filter uses. -/
def t2 : Test :=
  { test_id := 2, test_name := "T2", duration_days := 3,
    required_storage_condition := "", season_required := "" }

/-- A contract collected on day 45 (1970-02-15, winter) whose first test
pushes the timeline to day 90 (1970-04-01, spring). -/
def cDrift : Contract :=
  { contract_id := 9, product_name := "P", active_substance := "S",
    required_tests := "T1,T2", sample_collection_date := 45,
    contract_deadline := 200, max_storage_days := 30 }

/-- Claim C9: the season groups are Dec/Jan/Feb winter, Mar/Apr/May spring,
Jun/Jul/Aug summer, Sep/Oct/Nov autumn; the scheduler resolves the season
exactly once, from the month of the original sample-collection date; and on a
contract whose timeline drifts from winter (day 45) into spring (day 90) the
second test is still filtered with winter: the winter-only lab is chosen and
the cheaper spring-only lab is ignored. -/
theorem C9_season_once :
    (months_to_season 12 = "winter" ∧ months_to_season 1 = "winter" ∧
      months_to_season 2 = "winter") ∧
    (months_to_season 3 = "spring" ∧ months_to_season 4 = "spring" ∧
      months_to_season 5 = "spring") ∧
    (months_to_season 6 = "summer" ∧ months_to_season 7 = "summer" ∧
      months_to_season 8 = "summer") ∧
    (months_to_season 9 = "autumn" ∧ months_to_season 10 = "autumn" ∧
      months_to_season 11 = "autumn") ∧
    (∀ (c : Contract) (labs : List Lab) (tests : List Test),
      schedule_for_contract c labs tests =
        scheduleFrom labs tests c.contract_deadline
          (months_to_season (monthOfDay c.sample_collection_date)).data
          c.sample_collection_date (splitTokens c.required_tests)) ∧
    (monthOfDay cDrift.sample_collection_date = 2 ∧ months_to_season 2 = "winter" ∧
      entryDates [lab0, labW, labS] [t1, t2] 200 "winter".data 45
        (splitTokens cDrift.required_tests) = [45, 90] ∧
      monthOfDay 90 = 4 ∧ months_to_season 4 = "spring" ∧
      (schedule_for_contract cDrift [lab0, labW, labS] [t1, t2]).map
        (fun a => a.lab_id) = [some lab0.lab_id, some labW.lab_id] ∧
      eligible "spring".data "T2".data "" labS = true ∧
      eligible "winter".data "T2".data "" labS = false ∧
      labS.price_per_test < labW.price_per_test) :=
  ⟨by decide, by decide, by decide, by decide, fun c labs tests => rfl, by decide⟩

/-! ### Field parsing -/

theorem splitComma_ne_nil (l : List Char) : splitComma l ≠ [] := by
  induction l with
  | nil => simp [splitComma]
  | cons c cs ih =>
    simp only [splitComma]
    split
    · simp
    · split
      · simp
      · simp

theorem splitComma_append (xs ys : List Char) :
    splitComma (xs ++ ',' :: ys) = splitComma xs ++ splitComma ys := by
  induction xs with
  | nil =>
    simp [splitComma]
  | cons x xs ih =>
    by_cases hx : x = ','
    · subst hx
      simp [splitComma, ih]
    · cases h : splitComma xs with
      | nil => exact absurd h (splitComma_ne_nil xs)
      | cons g gs =>
        simp [splitComma, hx, ih, h, List.cons_append]

theorem semiToComma_append_semi (s1 s2 : List Char) :
    semiToComma (s1 ++ ';' :: s2) = semiToComma s1 ++ ',' :: semiToComma s2 := by
  simp [semiToComma]

theorem semiToComma_append_comma (s1 s2 : List Char) :
    semiToComma (s1 ++ ',' :: s2) = semiToComma s1 ++ ',' :: semiToComma s2 := by
  simp [semiToComma]

theorem tokens_mem_shape {l : List (List Char)} {t : List Char}
    (h : t ∈ (l.map trimL).filter (fun t => !t.isEmpty)) :
    t ≠ [] ∧ ∃ raw, t = trimL raw := by
  rcases List.mem_filter.mp h with ⟨hmem, hpred⟩
  constructor
  · intro he
    subst he
    simp at hpred
  · rcases List.mem_map.mp hmem with ⟨raw, _, hraw⟩
    exact ⟨raw, hraw.symm⟩

/-- Claim C10 as amended: `parse_list_field` maps missing and empty input to
no tokens and splits on ',' only, into stripped nonempty tokens with no case
normalization; the scheduler's inline parser `splitTokens` splits on both ','
and ';' into stripped nonempty tokens, and the lab-field variant `toksLower`
is the same tokens lower-cased. -/
theorem C10_field_parsing :
    parse_list_field none = [] ∧
    parse_list_field (some "") = [] ∧
    (∀ s1 s2 : List Char, parse_list_field (some ⟨s1 ++ ',' :: s2⟩) =
      parse_list_field (some ⟨s1⟩) ++ parse_list_field (some ⟨s2⟩)) ∧
    (∀ (s : String) (t : List Char), t ∈ parse_list_field (some s) →
      t ≠ [] ∧ ∃ raw, t = trimL raw) ∧
    splitTokens "" = [] ∧
    (∀ s1 s2 : List Char, splitTokens ⟨s1 ++ ',' :: s2⟩ =
      splitTokens ⟨s1⟩ ++ splitTokens ⟨s2⟩) ∧
    (∀ s1 s2 : List Char, splitTokens ⟨s1 ++ ';' :: s2⟩ =
      splitTokens ⟨s1⟩ ++ splitTokens ⟨s2⟩) ∧
    (∀ (s : String) (t : List Char), t ∈ splitTokens s →
      t ≠ [] ∧ ∃ raw, t = trimL raw) ∧
    (∀ s : String, toksLower s = (splitTokens s).map lowerL) := by
  refine ⟨rfl, by decide, ?_, ?_, by decide, ?_, ?_, ?_, fun s => rfl⟩
  · intro s1 s2
    show ((splitComma (s1 ++ ',' :: s2)).map trimL).filter (fun t => !t.isEmpty) = _
    rw [splitComma_append, List.map_append, List.filter_append]
    rfl
  · intro s t h
    exact tokens_mem_shape h
  · intro s1 s2
    show ((splitComma (semiToComma (s1 ++ ',' :: s2))).map trimL).filter
        (fun t => !t.isEmpty) = _
    rw [semiToComma_append_comma, splitComma_append, List.map_append, List.filter_append]
    rfl
  · intro s1 s2
    show ((splitComma (semiToComma (s1 ++ ';' :: s2))).map trimL).filter
        (fun t => !t.isEmpty) = _
    rw [semiToComma_append_semi, splitComma_append, List.map_append, List.filter_append]
    rfl
  · intro s t h
    exact tokens_mem_shape h

/-- Counterexample to C10 as stated: `parse_list_field` does not split on ';'
and does not case-normalize; on "A;b" it returns the single token "A;b" where
the claimed parser returns the tokens "a" and "b". -/
theorem C10_parse_cex :
    parse_list_field (some "A;b") ≠ parse_list_field_claimed (some "A;b") ∧
    parse_list_field (some "A;b") = ["A;b".data] ∧
    parse_list_field_claimed (some "A;b") = ["a".data, "b".data] := by
  refine ⟨by decide, by decide, by decide⟩

end LabSched
